import Mathlib

/-!
A shallow embedding of `java/app.go` from the Soong Android build system
(module type `android_app`): flag assembly (`aaptFlags`), dependency
collection, overlay-aware resource-directory resolution, certificate
resolution and the build-action orchestration
(`GenerateAndroidBuildActions`, `DepsMutator`).

Go slices of strings are modelled as `List String`; the build
configuration (`ctx.AConfig()`), the module context (source paths, glob,
direct dependencies) and the filesystem are modelled as an explicit
read-only environment record `Env`.
-/

namespace SoongApp

/-- Models Go `filepath.Join` on two already-clean path components:
joins with a single separator, dropping an empty component. -/
def filepathJoin (a b : String) : String :=
  if a = "" then b else if b = "" then a else a ++ "/" ++ b

/-- Character-list prefix test; `isPre p s` models Go
`strings.HasPrefix(s, p)` applied to the underlying character data. -/
def isPre : List Char → List Char → Bool
  | [], _ => true
  | _ :: _, [] => false
  | p :: ps, c :: cs => if p = c then isPre ps cs else false

/-- Go `strings.HasPrefix(s, p)`. -/
def goHasPre (s p : String) : Bool := isPre p.data s.data

/-- Go `filepath.Split(s)` returns an empty directory part exactly when
`s` contains no path separator; this is the test used by the certificate
resolution branch. -/
def hasDirSep (s : String) : Bool := s.data.contains '/'

/-- Per-module properties from the generic java `Module`
(`a.properties`): the manifest override and `No_standard_libraries`. -/
structure ModuleProperties where
  Manifest : Option String
  No_standard_libraries : Bool

/-- Per-module device properties (`a.deviceProperties`). -/
structure DeviceProperties where
  Sdk_version : String

/-- The `androidAppProperties` struct of `app.go`. -/
structure androidAppProperties where
  Certificate : String
  Additional_certificates : List String
  Export_package_resources : Bool
  Aaptflags : List String
  Package_splits : List String
  Asset_dirs : List String
  Android_resource_dirs : List String

/-- The `AndroidApp` module: the property structs reachable from the
receiver of the embedded methods. -/
structure AndroidApp where
  properties : ModuleProperties
  deviceProperties : DeviceProperties
  appProperties : androidAppProperties

/-- Read-only environment: the build configuration `ctx.AConfig()`
(platform versions, certificates, overlay roots), the module context
paths, the filesystem existence test behind `OverlayPath` and the
optional-default directory lookup, the glob service `ctx.Glob` (already
applying the `aaptIgnoreFilenames` filter), and the flattened list of
dependency files contributed by `VisitDirectDeps` in visitation order. -/
structure Env where
  platformSdkVersion : String
  platformVersion : String
  buildNumber : String
  productAaptCharacteristics : String
  defaultAppCertificate : String
  defaultAppCertificateDir : String
  resourceOverlays : List String
  sourceRoot : String
  moduleDir : String
  fsExists : String → Bool
  glob : String → List String
  depFiles : List String

/-- The certificate resolution of `GenerateAndroidBuildActions`
(lines 138–150): an empty spec uses the product default certificate, a
spec without a directory separator is looked up in the default
certificate directory, and any other spec is resolved against the source
root; every additional certificate is resolved against the source root,
and the primary certificate comes first. -/
def resolveCertificates (certSpec : String) (additional : List String)
    (defaultCert defaultCertDir sourceRoot : String) : List String :=
  let primary :=
    if certSpec = "" then defaultCert
    else if hasDirSep certSpec = false then filepathJoin defaultCertDir certSpec
    else filepathJoin sourceRoot certSpec
  primary :: additional.map (fun c => filepathJoin sourceRoot c)

/-- Modelled from the spec: `android.PathsWithOptionalDefaultForModuleSrc`
(not shown in the source) — if the configured list is non-empty, its
entries are used verbatim as module-source-relative directories;
otherwise the single default-named directory is used when it exists. -/
def pathsWithOptionalDefaultForModuleSrc (env : Env) (input : List String)
    (deflt : String) : List String :=
  if input.isEmpty then
    if env.fsExists (filepathJoin env.moduleDir deflt) then
      [filepathJoin env.moduleDir deflt]
    else []
  else input.map (fun d => filepathJoin env.moduleDir d)

/-- The resolved asset directories (`assetDirs` in `aaptFlags`); never
consults the overlay roots. -/
def resolvedAssetDirs (env : Env) (a : AndroidApp) : List String :=
  pathsWithOptionalDefaultForModuleSrc env a.appProperties.Asset_dirs "assets"

/-- The base (pre-overlay) resource directories (`resourceDirs` before
the overlay loop of `aaptFlags`). -/
def baseResourceDirs (env : Env) (a : AndroidApp) : List String :=
  pathsWithOptionalDefaultForModuleSrc env a.appProperties.Android_resource_dirs "res"

/-- The overlay loop of `aaptFlags` (lines 187–197): for every overlay
root, in configuration order, and every base resource directory, the
overlay directory is collected when it exists (`OverlayPath` — modelled
from the spec as an existence test on `overlayRoot/<base-dir>`). -/
def overlayResourceDirs (env : Env) (a : AndroidApp) : List String :=
  env.resourceOverlays.flatMap (fun o =>
    (baseResourceDirs env a).filterMap (fun r =>
      if env.fsExists (filepathJoin o r) then some (filepathJoin o r) else none))

/-- Lines 199–201: the matching overlays, when any, are prepended as a
block ahead of the whole base resource-directory list. -/
def resolvedResourceDirs (env : Env) (a : AndroidApp) : List String :=
  if 0 < (overlayResourceDirs env a).length then
    overlayResourceDirs env a ++ baseResourceDirs env a
  else baseResourceDirs env a

/-- Lines 219–224: the manifest file name, synthesized as
`AndroidManifest.xml` when the `Manifest` property is unset. -/
def manifestFile (a : AndroidApp) : String :=
  match a.properties.Manifest with
  | none => "AndroidManifest.xml"
  | some m => m

/-- `android.PathForModuleSrc(ctx, manifestFile)`: the manifest path is
module-source-relative. -/
def manifestPath (env : Env) (a : AndroidApp) : String :=
  filepathJoin env.moduleDir (manifestFile a)

/-- The explicit-flag scan of `aaptFlags` (lines 170–178), performed on
the configured flag list before any default is computed: first component
is `hasVersionCode`, second is `hasVersionName`. -/
def scanVersionFlags : List String → Bool × Bool
  | [] => (false, false)
  | f :: fs =>
    let r := scanVersionFlags fs
    if goHasPre f "--version-code" then (true, r.2)
    else if goHasPre f "--version-name" then (r.1, true)
    else r

/-- Modelled from the spec: `android.JoinWithPrefix` (not shown in the
source) — each string is prefixed and the results are joined into a
single space-separated string (empty for an empty list). -/
def joinWithPre : List String → String → String
  | [], _ => ""
  | [s], p => p ++ s
  | s :: s2 :: t, p => p ++ s ++ " " ++ joinWithPre (s2 :: t) p

/-- The SDK version used for `--min-sdk-version`/`--target-sdk-version`
(lines 249–252): the declared `Sdk_version`, or the platform default
when unset. -/
def sdkVersionOf (env : Env) (a : AndroidApp) : String :=
  if a.deviceProperties.Sdk_version = "" then env.platformSdkVersion
  else a.deviceProperties.Sdk_version

/-- Result of the `aaptFlags` method: the assembled flag sequence, the
dependency-file set, and the has-resources boolean. -/
structure AaptResult where
  flags : List String
  deps : List String
  hasResources : Bool

/-- The `aaptFlags` method of `AndroidApp` (lines 168–273), assembled in
source order: explicit flags, `-z`, manifest/asset/resource directory
flags, `-I` dependency flags, SDK versions, and the version-code /
version-name defaults gated by the explicit-flag scan.  The dependency
set collects resource-directory globs, asset-directory globs, the
manifest path and the dependency files, in that order. -/
def aaptFlags (env : Env) (a : AndroidApp) : AaptResult :=
  let scan := scanVersionFlags a.appProperties.Aaptflags
  let hasVersionCode := scan.1
  let hasVersionName := scan.2
  let flags := a.appProperties.Aaptflags ++ ["-z"]
  let assetDirs := resolvedAssetDirs env a
  let resourceDirs := resolvedResourceDirs env a
  let resDeps := resourceDirs.flatMap env.glob
  let hasResources := resourceDirs.any (fun d => !(env.glob d).isEmpty)
  let deps := resDeps ++ assetDirs.flatMap env.glob
  let mp := manifestPath env a
  let deps := deps ++ [mp]
  let flags := flags ++
    ["-M " ++ mp, joinWithPre assetDirs "-A ", joinWithPre resourceDirs "-S "]
  let flags := flags ++ env.depFiles.map (fun d => "-I " ++ d)
  let deps := deps ++ env.depFiles
  let sdkVersion := sdkVersionOf env a
  let flags := flags ++
    ["--min-sdk-version " ++ sdkVersion, "--target-sdk-version " ++ sdkVersion]
  let flags := flags ++
    (if hasVersionCode then [] else ["--version-code " ++ env.platformSdkVersion])
  let flags := flags ++
    (if hasVersionName then []
     else ["--version-name " ++ env.platformVersion ++ "-" ++ env.buildNumber])
  ⟨flags, deps, hasResources⟩

/-- The `--product` scan performed by `GenerateAndroidBuildActions`
(lines 95–101 and 125–131) on one flag copy. -/
def hasProductFlag (flags : List String) : Bool :=
  flags.any (fun f => goHasPre f "--product")

/-- Lines 94–106 / 124–136: copy the base flags and append the computed
`--product` default only when the copy's own scan found no explicit
`--product` flag. -/
def appendProductFlag (env : Env) (flags : List String) : List String :=
  if hasProductFlag flags then flags
  else flags ++ ["--product " ++ env.productAaptCharacteristics]

/-- Observable outcome of `GenerateAndroidBuildActions`: which resource
artifacts are produced, the flag copies of each aapt invocation, the
resolved certificates and the dependency set. -/
structure BuildActions where
  producedRJava : Bool
  producedPublicResources : Bool
  producedProguardOptions : Bool
  producedExportPackage : Bool
  rJavaFlags : Option (List String)
  exportPackageFlags : Option (List String)
  mainPackageFlags : List String
  certificates : List String
  aaptDeps : List String
  hasResources : Bool

/-- The `GenerateAndroidBuildActions` method (lines 81–154): the R-java,
public-resources and proguard-options artifacts exist exactly when
resources were found; the export package additionally requires
`Export_package_resources`; the export and main invocations each extend
their own copy of the base flags with the conditional `--product`
default; the certificate set is resolved from the certificate
properties. -/
def GenerateAndroidBuildActions (env : Env) (a : AndroidApp) : BuildActions :=
  let r := aaptFlags env a
  { producedRJava := r.hasResources
    producedPublicResources := r.hasResources
    producedProguardOptions := r.hasResources
    producedExportPackage :=
      r.hasResources && a.appProperties.Export_package_resources
    rJavaFlags := if r.hasResources then some r.flags else none
    exportPackageFlags :=
      if r.hasResources && a.appProperties.Export_package_resources then
        some (appendProductFlag env r.flags)
      else none
    mainPackageFlags := appendProductFlag env r.flags
    certificates :=
      resolveCertificates a.appProperties.Certificate
        a.appProperties.Additional_certificates
        env.defaultAppCertificate env.defaultAppCertificateDir env.sourceRoot
    aaptDeps := r.deps
    hasResources := r.hasResources }

/-- The `DepsMutator` method (lines 68–79): `true` exactly when the
switch adds the `framework-res` dependency. -/
def depsMutatorAddsFrameworkRes (a : AndroidApp) : Bool :=
  if !a.properties.No_standard_libraries then
    if a.deviceProperties.Sdk_version = "current" ∨
       a.deviceProperties.Sdk_version = "system_current" ∨
       a.deviceProperties.Sdk_version = "" then true
    else false
  else false

/-- Decomposition of the assembled flag sequence into its source-order
segments. -/
theorem aaptFlags_flags_eq (env : Env) (a : AndroidApp) :
    (aaptFlags env a).flags =
      a.appProperties.Aaptflags ++ ["-z"] ++
      ["-M " ++ manifestPath env a,
       joinWithPre (resolvedAssetDirs env a) "-A ",
       joinWithPre (resolvedResourceDirs env a) "-S "] ++
      env.depFiles.map (fun d => "-I " ++ d) ++
      ["--min-sdk-version " ++ sdkVersionOf env a,
       "--target-sdk-version " ++ sdkVersionOf env a] ++
      (if (scanVersionFlags a.appProperties.Aaptflags).1 then []
       else ["--version-code " ++ env.platformSdkVersion]) ++
      (if (scanVersionFlags a.appProperties.Aaptflags).2 then []
       else ["--version-name " ++ env.platformVersion ++ "-" ++ env.buildNumber]) :=
  rfl

/-- Decomposition of the dependency set into its source-order segments. -/
theorem aaptFlags_deps_eq (env : Env) (a : AndroidApp) :
    (aaptFlags env a).deps =
      (resolvedResourceDirs env a).flatMap env.glob ++
      (resolvedAssetDirs env a).flatMap env.glob ++
      [manifestPath env a] ++ env.depFiles :=
  rfl

/-- The has-resources boolean is exactly the test that some resolved
resource directory globs to a non-empty file list. -/
theorem aaptFlags_hasResources_eq (env : Env) (a : AndroidApp) :
    (aaptFlags env a).hasResources =
      (resolvedResourceDirs env a).any (fun d => !(env.glob d).isEmpty) :=
  rfl

end SoongApp

namespace SoongApp

/-- `C2`: certificate resolution is a deterministic three-way branch on
the shape of the spec: empty ⇒ the product default certificate; no
directory separator ⇒ `join(defaultCertDir, spec)`; otherwise
`join(sourceRoot, spec)`.  Every additional certificate resolves to
`join(sourceRoot, entry)` regardless of shape, and the result is the
primary certificate followed by the additional certificates in
configuration order. -/
theorem C2_certificate_resolution (certSpec : String) (additional : List String)
    (defaultCert defaultCertDir sourceRoot : String) :
    (certSpec = "" →
      resolveCertificates certSpec additional defaultCert defaultCertDir sourceRoot =
        defaultCert :: additional.map (fun c => filepathJoin sourceRoot c)) ∧
    (certSpec ≠ "" → hasDirSep certSpec = false →
      resolveCertificates certSpec additional defaultCert defaultCertDir sourceRoot =
        filepathJoin defaultCertDir certSpec ::
          additional.map (fun c => filepathJoin sourceRoot c)) ∧
    (hasDirSep certSpec = true →
      resolveCertificates certSpec additional defaultCert defaultCertDir sourceRoot =
        filepathJoin sourceRoot certSpec ::
          additional.map (fun c => filepathJoin sourceRoot c)) := by
  refine ⟨fun h => ?_, fun h1 h2 => ?_, fun h => ?_⟩
  · simp [resolveCertificates, h]
  · simp [resolveCertificates, h1, h2]
  · have hne : certSpec ≠ "" := by
      intro he
      rw [he] at h
      simp [hasDirSep] at h
    simp [resolveCertificates, hne, h]

/-- Witness for `C2`: the three branch shapes evaluated at the concrete
inputs of the spec's examples. -/
theorem C2_certificate_resolution_witness :
    resolveCertificates "" ["extra.pk8"] "default.pk8" "/certs" "/src" =
      ["default.pk8", "/src/extra.pk8"] ∧
    resolveCertificates "foo" [] "default.pk8" "/certs" "/src" = ["/certs/foo"] ∧
    resolveCertificates "keys/foo.pk8" [] "default.pk8" "/certs" "/src" =
      ["/src/keys/foo.pk8"] := by
  refine ⟨?_, ?_, ?_⟩
  · have h := (C2_certificate_resolution "" ["extra.pk8"] "default.pk8" "/certs" "/src").1
      (by decide)
    rw [h]; decide
  · have h := (C2_certificate_resolution "foo" [] "default.pk8" "/certs" "/src").2.1
      (by decide) (by decide)
    rw [h]; decide
  · have h := (C2_certificate_resolution "keys/foo.pk8" [] "default.pk8" "/certs" "/src").2.2
      (by decide)
    rw [h]; decide

/-- `C10`: the framework-res dependency is added during dependency
mutation exactly when the module does not set `No_standard_libraries`
and its declared `Sdk_version` is `current`, `system_current`, or
empty. -/
theorem C10_framework_res_dependency (a : AndroidApp) :
    depsMutatorAddsFrameworkRes a =
      (!a.properties.No_standard_libraries &&
        decide (a.deviceProperties.Sdk_version = "current" ∨
          a.deviceProperties.Sdk_version = "system_current" ∨
          a.deviceProperties.Sdk_version = "")) := by
  cases hno : a.properties.No_standard_libraries <;>
    by_cases h : (a.deviceProperties.Sdk_version = "current" ∨
      a.deviceProperties.Sdk_version = "system_current" ∨
      a.deviceProperties.Sdk_version = "") <;>
    simp [depsMutatorAddsFrameworkRes, hno, h]

/-- `C8`: the assembled flag sequence contains `--min-sdk-version v` and
`--target-sdk-version v` with the same value `v`, which is the declared
`Sdk_version` when non-empty and otherwise the platform default SDK
version. -/
theorem C8_sdk_version_defaulting (env : Env) (a : AndroidApp) :
    ("--min-sdk-version " ++ sdkVersionOf env a) ∈ (aaptFlags env a).flags ∧
    ("--target-sdk-version " ++ sdkVersionOf env a) ∈ (aaptFlags env a).flags ∧
    (a.deviceProperties.Sdk_version ≠ "" →
      sdkVersionOf env a = a.deviceProperties.Sdk_version) ∧
    (a.deviceProperties.Sdk_version = "" →
      sdkVersionOf env a = env.platformSdkVersion) := by
  refine ⟨?_, ?_, fun h => ?_, fun h => ?_⟩
  · rw [aaptFlags_flags_eq]
    simp [List.mem_append]
  · rw [aaptFlags_flags_eq]
    simp [List.mem_append]
  · simp [sdkVersionOf, h]
  · simp [sdkVersionOf, h]

/-- `C9`: a manifest path is always produced — synthesized from the
default name `AndroidManifest.xml` when the `Manifest` property is unset
— and it is both added to the dependency set and emitted as the `-M`
flag. -/
theorem C9_manifest_synthesis (env : Env) (a : AndroidApp) :
    (a.properties.Manifest = none →
      manifestPath env a = filepathJoin env.moduleDir "AndroidManifest.xml") ∧
    manifestPath env a ∈ (aaptFlags env a).deps ∧
    ("-M " ++ manifestPath env a) ∈ (aaptFlags env a).flags := by
  refine ⟨fun h => ?_, ?_, ?_⟩
  · simp [manifestPath, manifestFile, h]
  · rw [aaptFlags_deps_eq]
    simp [List.mem_append]
  · rw [aaptFlags_flags_eq]
    simp [List.mem_append]

end SoongApp

namespace SoongApp

/-- Sample environment used by the witnesses. -/
def envW : Env :=
  { platformSdkVersion := "21"
    platformVersion := "5"
    buildNumber := "42"
    productAaptCharacteristics := "nosdcard"
    defaultAppCertificate := "default.pk8"
    defaultAppCertificateDir := "/certs"
    resourceOverlays := ["/ov"]
    sourceRoot := "/src"
    moduleDir := "pkg"
    fsExists := fun _ => true
    glob := fun _ => []
    depFiles := [] }

/-- Sample module used by the witnesses. -/
def appW : AndroidApp :=
  { properties := { Manifest := none, No_standard_libraries := false }
    deviceProperties := { Sdk_version := "" }
    appProperties :=
      { Certificate := ""
        Additional_certificates := []
        Export_package_resources := true
        Aaptflags := []
        Package_splits := []
        Asset_dirs := ["assets1"]
        Android_resource_dirs := ["res1"] } }

/-- Witness for `C8`: with an unset `Sdk_version` both SDK flags carry
the platform default. -/
theorem C8_sdk_version_defaulting_witness :
    "--min-sdk-version 21" ∈ (aaptFlags envW appW).flags ∧
    "--target-sdk-version 21" ∈ (aaptFlags envW appW).flags ∧
    sdkVersionOf envW appW = "21" := by
  have h := C8_sdk_version_defaulting envW appW
  exact ⟨h.1, h.2.1, h.2.2.2 rfl⟩

/-- Sample environment whose glob finds one resource file in every
directory, so resources are present. -/
def envR : Env := { envW with glob := fun d => [filepathJoin d "x.png"] }

/-- Witness for `C9`: the manifest is synthesized from the default name,
lands in the dependency set and is emitted as the `-M` flag. -/
theorem C9_manifest_synthesis_witness :
    manifestPath envW appW = "pkg/AndroidManifest.xml" ∧
    "pkg/AndroidManifest.xml" ∈ (aaptFlags envW appW).deps ∧
    "-M pkg/AndroidManifest.xml" ∈ (aaptFlags envW appW).flags := by
  have h := C9_manifest_synthesis envW appW
  exact ⟨h.1 rfl, h.2.1, h.2.2⟩

/-- `C6`: the export-package and main-package invocations each scan
their own copy of the base flag sequence for a `--product` token and
append the computed `--product` default only when their own scan found
none; both copies are pure functions of the base sequence, and the main
invocation's flags never depend on whether the export invocation runs. -/
theorem C6_product_flag_independence (env : Env) (a : AndroidApp) :
    (GenerateAndroidBuildActions env a).mainPackageFlags =
      appendProductFlag env (aaptFlags env a).flags ∧
    (∀ fl, (GenerateAndroidBuildActions env a).exportPackageFlags = some fl →
      fl = appendProductFlag env (aaptFlags env a).flags) ∧
    (hasProductFlag (aaptFlags env a).flags = true →
      appendProductFlag env (aaptFlags env a).flags = (aaptFlags env a).flags) ∧
    (hasProductFlag (aaptFlags env a).flags = false →
      appendProductFlag env (aaptFlags env a).flags =
        (aaptFlags env a).flags ++ ["--product " ++ env.productAaptCharacteristics]) ∧
    (∀ b, (GenerateAndroidBuildActions env
        { a with appProperties :=
            { a.appProperties with Export_package_resources := b } }).mainPackageFlags =
      (GenerateAndroidBuildActions env a).mainPackageFlags) := by
  refine ⟨rfl, fun fl h => ?_, fun h => ?_, fun h => ?_, fun b => rfl⟩
  · simp only [GenerateAndroidBuildActions] at h
    by_cases hc : ((aaptFlags env a).hasResources &&
        a.appProperties.Export_package_resources) = true
    · rw [if_pos hc] at h
      exact (Option.some.inj h).symm
    · rw [if_neg hc] at h
      exact absurd h (by simp)
  · simp [appendProductFlag, h]
  · simp [appendProductFlag, h]

/-- Witness for `C6`: with no explicit `--product` flag both invocations
append the computed default to their own copies. -/
theorem C6_product_flag_independence_witness :
    hasProductFlag (aaptFlags envR appW).flags = false ∧
    appendProductFlag envR (aaptFlags envR appW).flags =
      (aaptFlags envR appW).flags ++ ["--product nosdcard"] ∧
    (GenerateAndroidBuildActions envR appW).mainPackageFlags =
      appendProductFlag envR (aaptFlags envR appW).flags ∧
    appendProductFlag envR (aaptFlags envR appW).flags =
      appendProductFlag envR (aaptFlags envR appW).flags := by
  have h := C6_product_flag_independence envR appW
  refine ⟨by decide, h.2.2.2.1 (by decide), h.1, h.2.1 _ ?_⟩
  decide

/-- `C7`: the configured flag list is an unchanged initial segment of
the base flag sequence, and each per-invocation flag copy (R-java,
export-package, main-package) extends the base sequence without
disturbing it: the base is an initial segment of every extended copy,
and the R-java pass receives an exact copy of the base. -/
theorem C7_copy_isolation (env : Env) (a : AndroidApp) :
    a.appProperties.Aaptflags <+: (aaptFlags env a).flags ∧
    (aaptFlags env a).flags <+:
      (GenerateAndroidBuildActions env a).mainPackageFlags ∧
    (∀ fl, (GenerateAndroidBuildActions env a).exportPackageFlags = some fl →
      (aaptFlags env a).flags <+: fl) ∧
    (∀ fl, (GenerateAndroidBuildActions env a).rJavaFlags = some fl →
      fl = (aaptFlags env a).flags) := by
  have hap : ∀ fs, fs <+: appendProductFlag env fs := by
    intro fs
    by_cases h : hasProductFlag fs = true
    · simp [appendProductFlag, h]
    · simp only [appendProductFlag, Bool.not_eq_true] at h ⊢
      rw [if_neg (by simp [h])]
      exact List.prefix_append _ _
  refine ⟨?_, hap _, fun fl h => ?_, fun fl h => ?_⟩
  · rw [aaptFlags_flags_eq]
    simp only [List.append_assoc]
    exact List.prefix_append _ _
  · simp only [GenerateAndroidBuildActions] at h
    by_cases hc : ((aaptFlags env a).hasResources &&
        a.appProperties.Export_package_resources) = true
    · rw [if_pos hc] at h
      rw [← Option.some.inj h]
      exact hap _
    · rw [if_neg hc] at h
      exact absurd h (by simp)
  · simp only [GenerateAndroidBuildActions] at h
    by_cases hc : (aaptFlags env a).hasResources = true
    · rw [if_pos hc] at h
      exact (Option.some.inj h).symm
    · rw [if_neg hc] at h
      exact absurd h (by simp)

/-- Witness for `C7`: with resources present, the R-java pass flags are
an exact copy of the base sequence and the base is an initial segment of
the export and main copies. -/
theorem C7_copy_isolation_witness :
    appW.appProperties.Aaptflags <+: (aaptFlags envR appW).flags ∧
    (aaptFlags envR appW).flags <+:
      (GenerateAndroidBuildActions envR appW).mainPackageFlags ∧
    (aaptFlags envR appW).flags <+:
      appendProductFlag envR (aaptFlags envR appW).flags ∧
    (aaptFlags envR appW).flags = (aaptFlags envR appW).flags := by
  have h := C7_copy_isolation envR appW
  refine ⟨h.1, h.2.1, h.2.2.1 _ ?_, (h.2.2.2 _ ?_).symm⟩ <;> decide

/-- `C3`: every matching overlay directory is placed in the block of
overlays that precedes the whole base resource-directory list, overlays
are collected in overlay-root configuration order; when no overlay
matches the resolved list is the base list unchanged; and asset
directories never receive overlay treatment (they do not depend on the
configured overlay roots). -/
theorem C3_overlay_precedence (env : Env) (a : AndroidApp) :
    resolvedResourceDirs env a =
      overlayResourceDirs env a ++ baseResourceDirs env a ∧
    (∀ o ∈ env.resourceOverlays, ∀ r ∈ baseResourceDirs env a,
      env.fsExists (filepathJoin o r) = true →
      filepathJoin o r ∈ overlayResourceDirs env a) ∧
    (overlayResourceDirs env a = [] →
      resolvedResourceDirs env a = baseResourceDirs env a) ∧
    (∀ os : List String,
      resolvedAssetDirs { env with resourceOverlays := os } a =
        resolvedAssetDirs env a) := by
  refine ⟨?_, fun o ho r hr hex => ?_, fun h => ?_, fun os => rfl⟩
  · unfold resolvedResourceDirs
    cases h : overlayResourceDirs env a with
    | nil => simp
    | cons x t => simp [h]
  · simp only [overlayResourceDirs, List.mem_flatMap, List.mem_filterMap]
    exact ⟨o, ho, r, hr, by simp [hex]⟩
  · simp [resolvedResourceDirs, h]

/-- Witness for `C3`: one overlay root whose overlay of the single base
resource directory exists is prepended ahead of the base list. -/
theorem C3_overlay_precedence_witness :
    resolvedResourceDirs envW appW = ["/ov/pkg/res1", "pkg/res1"] ∧
    "/ov/pkg/res1" ∈ overlayResourceDirs envW appW := by
  have h := C3_overlay_precedence envW appW
  constructor
  · rw [h.1]; decide
  · exact h.2.1 "/ov" (by decide) "pkg/res1" (by decide) (by decide)

/-- `C4`: when every resolved resource directory globs to zero files the
has-resources boolean is false and no R-file, public-resources,
proguard-options or export-package artifact is produced, while the
manifest path is still added to the dependency set; files found in asset
directories are added to the dependency set but never make the
has-resources boolean true. -/
theorem C4_has_resources_gating (env : Env) (a : AndroidApp)
    (h : ∀ d ∈ resolvedResourceDirs env a, env.glob d = []) :
    (aaptFlags env a).hasResources = false ∧
    (GenerateAndroidBuildActions env a).producedRJava = false ∧
    (GenerateAndroidBuildActions env a).producedPublicResources = false ∧
    (GenerateAndroidBuildActions env a).producedProguardOptions = false ∧
    (GenerateAndroidBuildActions env a).producedExportPackage = false ∧
    (GenerateAndroidBuildActions env a).exportPackageFlags = none ∧
    manifestPath env a ∈ (GenerateAndroidBuildActions env a).aaptDeps ∧
    (∀ d ∈ resolvedAssetDirs env a, ∀ f ∈ env.glob d,
      f ∈ (GenerateAndroidBuildActions env a).aaptDeps) := by
  have hres : (aaptFlags env a).hasResources = false := by
    rw [aaptFlags_hasResources_eq]
    simp only [List.any_eq_false]
    intro d hd
    simp [h d hd]
  have hdeps : (GenerateAndroidBuildActions env a).aaptDeps =
      (aaptFlags env a).deps := rfl
  refine ⟨hres, ?_, ?_, ?_, ?_, ?_, ?_, fun d hd f hf => ?_⟩
  · simp [GenerateAndroidBuildActions, hres]
  · simp [GenerateAndroidBuildActions, hres]
  · simp [GenerateAndroidBuildActions, hres]
  · simp [GenerateAndroidBuildActions, hres]
  · simp [GenerateAndroidBuildActions, hres]
  · rw [hdeps, aaptFlags_deps_eq]
    simp [List.mem_append]
  · rw [hdeps, aaptFlags_deps_eq]
    simp only [List.mem_append, List.mem_flatMap]
    exact Or.inl (Or.inl (Or.inr ⟨d, hd, hf⟩))

/-- Sample environment whose glob finds files only under the asset
directory. -/
def envA : Env :=
  { envW with glob := fun d => if d = "pkg/assets1" then ["pkg/assets1/a.png"] else [] }

/-- Witness for `C4`: with empty resource globs but a non-empty asset
glob, no resource artifact is produced, the asset file and the manifest
are still dependencies. -/
theorem C4_has_resources_gating_witness :
    (aaptFlags envA appW).hasResources = false ∧
    (GenerateAndroidBuildActions envA appW).producedExportPackage = false ∧
    "pkg/AndroidManifest.xml" ∈ (GenerateAndroidBuildActions envA appW).aaptDeps ∧
    "pkg/assets1/a.png" ∈ (GenerateAndroidBuildActions envA appW).aaptDeps := by
  obtain ⟨h1, h2, h3, h4, h5, h6, h7, h8⟩ :=
    C4_has_resources_gating envA appW (by decide)
  exact ⟨h1, h5, h7, h8 "pkg/assets1" (by decide) _ (by decide)⟩

end SoongApp

namespace SoongApp

/-- If `l` is not a prefix of `p` and `p` is not a prefix of `l`, they
disagree inside `l`, so `p` is not a prefix of any extension of `l`. -/
theorem isPre_stop (p l : List Char) (h1 : isPre p l = false)
    (h2 : isPre l p = false) : ∀ s, isPre p (l ++ s) = false := by
  induction p generalizing l with
  | nil => simp [isPre] at h1
  | cons a as ih =>
    cases l with
    | nil => simp [isPre] at h2
    | cons b bs =>
      intro s
      by_cases hab : a = b
      · subst hab
        have h1' : isPre as bs = false := by simpa [isPre] using h1
        have h2' : isPre bs as = false := by simpa [isPre] using h2
        rw [List.cons_append]
        simpa [isPre] using ih bs h1' h2' s
      · simp [isPre, hab]

/-- Two patterns that are not prefixes of one another are never both
prefixes of the same string. -/
theorem isPre_mutex (p q : List Char) (hpq : isPre p q = false)
    (hqp : isPre q p = false) : ∀ s, isPre p s = true → isPre q s = false := by
  induction p generalizing q with
  | nil => simp [isPre] at hpq
  | cons a as ih =>
    cases q with
    | nil => simp [isPre] at hqp
    | cons b bs =>
      intro s hs
      cases s with
      | nil => simp [isPre] at hs
      | cons c cs =>
        by_cases hac : a = c
        · subst hac
          have hs' : isPre as cs = true := by simpa [isPre] using hs
          by_cases hba : b = a
          · subst hba
            have hpq' : isPre as bs = false := by simpa [isPre] using hpq
            have hqp' : isPre bs as = false := by simpa [isPre] using hqp
            simpa [isPre] using ih bs hpq' hqp' cs hs'
          · simp [isPre, hba]
        · simp [isPre, hac] at hs

/-- A flag with the `--version-code` prefix never also has the
`--version-name` prefix. -/
theorem vcode_vname_mutex (f : String)
    (h : goHasPre f "--version-code" = true) :
    goHasPre f "--version-name" = false :=
  isPre_mutex _ _ (by decide) (by decide) _ h

/-- A flag with the `--version-name` prefix never also has the
`--version-code` prefix. -/
theorem vname_vcode_mutex (f : String)
    (h : goHasPre f "--version-name" = true) :
    goHasPre f "--version-code" = false :=
  isPre_mutex _ _ (by decide) (by decide) _ h

/-- The explicit-flag scan agrees with an any-scan of the explicit list
for each of the two version-flag prefixes. -/
theorem scanVersionFlags_eq_any (fs : List String) :
    (scanVersionFlags fs).1 = fs.any (fun f => goHasPre f "--version-code") ∧
    (scanVersionFlags fs).2 = fs.any (fun f => goHasPre f "--version-name") := by
  induction fs with
  | nil => simp [scanVersionFlags]
  | cons f t ih =>
    by_cases hc : goHasPre f "--version-code" = true
    · have hn : goHasPre f "--version-name" = false := vcode_vname_mutex f hc
      simp [scanVersionFlags, hc, hn, ih.1, ih.2]
    · by_cases hn : goHasPre f "--version-name" = true
      · simp [scanVersionFlags, hc, hn, ih.1, ih.2]
      · simp [scanVersionFlags, hc, hn, ih.1, ih.2]

/-- A token of the form `lit ++ s` cannot carry prefix `pat` when `pat`
and `lit` are prefix-incomparable. -/
theorem goHasPre_lit_append (pat lit : String)
    (h1 : isPre pat.data lit.data = false)
    (h2 : isPre lit.data pat.data = false) (s : String) :
    goHasPre (lit ++ s) pat = false := by
  unfold goHasPre
  rw [String.data_append]
  exact isPre_stop _ _ h1 h2 _

/-- The joined directory-flag token (empty, or starting with the joining
position marker) never carries a prefix-incomparable pattern. -/
theorem goHasPre_join (pat p : String)
    (h1 : isPre pat.data p.data = false)
    (h2 : isPre p.data pat.data = false) (hpat : pat.data ≠ []) :
    ∀ ds, goHasPre (joinWithPre ds p) pat = false := by
  intro ds
  match ds with
  | [] =>
    cases hd : pat.data with
    | nil => exact absurd hd hpat
    | cons a t => simp [joinWithPre, goHasPre, hd, isPre]
  | [d] => exact goHasPre_lit_append pat p h1 h2 d
  | d :: d2 :: t =>
    have hj : joinWithPre (d :: d2 :: t) p =
        p ++ (d ++ " " ++ joinWithPre (d2 :: t) p) := by
      simp [joinWithPre, String.append_assoc]
    rw [hj]
    exact goHasPre_lit_append pat p h1 h2 _

/-- `C1`: when the configured flag list already contains a token with
prefix `--version-code`, the assembled flag sequence contains exactly
the original tokens for that option (its `--version-code`-prefixed
tokens are exactly those of the configured list) and no computed
default is appended; identically for `--version-name`.  The prefix scan
is performed on the explicit configured list. -/
theorem C1_explicit_version_flag_precedence (env : Env) (a : AndroidApp) :
    ((∃ f ∈ a.appProperties.Aaptflags, goHasPre f "--version-code" = true) →
      (aaptFlags env a).flags.filter (fun f => goHasPre f "--version-code") =
        a.appProperties.Aaptflags.filter (fun f => goHasPre f "--version-code")) ∧
    ((∃ f ∈ a.appProperties.Aaptflags, goHasPre f "--version-name" = true) →
      (aaptFlags env a).flags.filter (fun f => goHasPre f "--version-name") =
        a.appProperties.Aaptflags.filter (fun f => goHasPre f "--version-name")) := by
  constructor
  · rintro ⟨f, hf, hpre⟩
    have hscan : (scanVersionFlags a.appProperties.Aaptflags).1 = true := by
      rw [(scanVersionFlags_eq_any _).1]
      exact List.any_eq_true.mpr ⟨f, hf, hpre⟩
    have hImap : (env.depFiles.map (fun d => "-I " ++ d)).filter
        (fun f => goHasPre f "--version-code") = [] := by
      rw [List.filter_eq_nil_iff]
      intro x hx
      obtain ⟨d, _, rfl⟩ := List.mem_map.mp hx
      simp [goHasPre_lit_append "--version-code" "-I " (by decide) (by decide) d]
    have hvn : ∀ s t : String,
        goHasPre ("--version-name " ++ s ++ "-" ++ t) "--version-code" = false := by
      intro s t
      rw [String.append_assoc, String.append_assoc]
      exact goHasPre_lit_append _ "--version-name " (by decide) (by decide) _
    rw [aaptFlags_flags_eq, hscan]
    simp [List.filter_append, List.filter_cons, hImap, hvn,
      goHasPre_lit_append "--version-code" "-M " (by decide) (by decide),
      goHasPre_join "--version-code" "-A " (by decide) (by decide) (by decide),
      goHasPre_join "--version-code" "-S " (by decide) (by decide) (by decide),
      goHasPre_lit_append "--version-code" "--min-sdk-version " (by decide) (by decide),
      goHasPre_lit_append "--version-code" "--target-sdk-version " (by decide) (by decide),
      apply_ite (List.filter (fun f => goHasPre f "--version-code")),
      show goHasPre "-z" "--version-code" = false from by decide]
  · rintro ⟨f, hf, hpre⟩
    have hscan : (scanVersionFlags a.appProperties.Aaptflags).2 = true := by
      rw [(scanVersionFlags_eq_any _).2]
      exact List.any_eq_true.mpr ⟨f, hf, hpre⟩
    have hImap : (env.depFiles.map (fun d => "-I " ++ d)).filter
        (fun f => goHasPre f "--version-name") = [] := by
      rw [List.filter_eq_nil_iff]
      intro x hx
      obtain ⟨d, _, rfl⟩ := List.mem_map.mp hx
      simp [goHasPre_lit_append "--version-name" "-I " (by decide) (by decide) d]
    rw [aaptFlags_flags_eq, hscan]
    simp [List.filter_append, List.filter_cons, hImap,
      goHasPre_lit_append "--version-name" "-M " (by decide) (by decide),
      goHasPre_join "--version-name" "-A " (by decide) (by decide) (by decide),
      goHasPre_join "--version-name" "-S " (by decide) (by decide) (by decide),
      goHasPre_lit_append "--version-name" "--min-sdk-version " (by decide) (by decide),
      goHasPre_lit_append "--version-name" "--target-sdk-version " (by decide) (by decide),
      goHasPre_lit_append "--version-name" "--version-code " (by decide) (by decide),
      apply_ite (List.filter (fun f => goHasPre f "--version-name")),
      show goHasPre "-z" "--version-name" = false from by decide]

/-- Sample module with explicit version flags. -/
def appV : AndroidApp :=
  { appW with appProperties :=
      { appW.appProperties with
          Aaptflags := ["--version-code 7", "--version-name 1.0"] } }

/-- Witness for `C1`: with explicit `--version-code 7` and
`--version-name 1.0`, the assembled sequence keeps exactly those tokens
for the two options and appends no computed default. -/
theorem C1_explicit_version_flag_precedence_witness :
    (aaptFlags envW appV).flags.filter (fun f => goHasPre f "--version-code") =
      ["--version-code 7"] ∧
    (aaptFlags envW appV).flags.filter (fun f => goHasPre f "--version-name") =
      ["--version-name 1.0"] := by
  have h := C1_explicit_version_flag_precedence envW appV
  constructor
  · rw [h.1 ⟨"--version-code 7", by decide, by decide⟩]; decide
  · rw [h.2 ⟨"--version-name 1.0", by decide, by decide⟩]; decide

end SoongApp

namespace SoongApp

/-- Accumulator-based word splitter: collects the space-separated words
of a character list, dropping empty words; `acc` holds the current word
reversed. -/
def splitWordsGo : List Char → List Char → List (List Char)
  | [], acc => if acc = [] then [] else [acc.reverse]
  | c :: cs, acc =>
    if c = ' ' then
      if acc = [] then splitWordsGo cs []
      else acc.reverse :: splitWordsGo cs []
    else splitWordsGo cs (c :: acc)

/-- The space-separated words of a character list. -/
def splitWords (cs : List Char) : List (List Char) := splitWordsGo cs []

/-- The shell-level words of one flag-sequence element. -/
def flagWords (s : String) : List String :=
  (splitWords s.data).map (fun w => String.mk w)

/-- The shell-level token stream of a flag sequence: the elements joined
by spaces and split at spaces, as the external packaging command line
receives them. -/
def flagTokens (fs : List String) : List String := fs.flatMap flagWords

theorem splitWordsGo_no_space (w : List Char) (h : ' ' ∉ w) :
    ∀ ys acc, splitWordsGo (w ++ ys) acc = splitWordsGo ys (w.reverse ++ acc) := by
  induction w with
  | nil => intro ys acc; simp
  | cons c w ih =>
    intro ys acc
    have hc : ¬ c = ' ' := fun he => h (he ▸ List.mem_cons_self c w)
    rw [List.cons_append]
    simp only [splitWordsGo, if_neg hc]
    rw [ih (fun hm => h (List.mem_cons_of_mem _ hm)) ys (c :: acc)]
    simp

theorem splitWords_word_cons (w : List Char) (hw : ' ' ∉ w) (hne : w ≠ [])
    (ys : List Char) : splitWords (w ++ ' ' :: ys) = w :: splitWords ys := by
  unfold splitWords
  rw [splitWordsGo_no_space w hw (' ' :: ys) []]
  have hrne : ¬ w.reverse ++ [] = [] := by simpa using hne
  simp only [splitWordsGo, if_pos rfl, if_neg hrne]
  simp

theorem splitWords_word (w : List Char) (hw : ' ' ∉ w) (hne : w ≠ []) :
    splitWords w = [w] := by
  have h2 : splitWordsGo (w ++ []) [] = splitWordsGo [] (w.reverse ++ []) :=
    splitWordsGo_no_space w hw [] []
  simp only [List.append_nil] at h2
  unfold splitWords
  rw [h2]
  have hrne : ¬ w.reverse = [] := by simpa using hne
  simp [splitWordsGo, hrne]

/-- A two-word element `pc ++ " " ++ m` splits into its two words. -/
theorem flagWords_two (s pc m : String) (hs : s.data = pc.data ++ ' ' :: m.data)
    (hpc1 : ' ' ∉ pc.data) (hpc2 : pc.data ≠ [])
    (hm1 : ' ' ∉ m.data) (hm2 : m.data ≠ []) : flagWords s = [pc, m] := by
  unfold flagWords
  rw [hs, splitWords_word_cons _ hpc1 hpc2, splitWords_word _ hm1 hm2]
  rfl

/-- The joined directory-flag element contributes one position-marker
word followed by the directory, per directory, in order. -/
theorem flagWords_joinWithPre (pc : String) (hpc1 : ' ' ∉ pc.data)
    (hpc2 : pc.data ≠ []) :
    ∀ ds : List String, (∀ d ∈ ds, ' ' ∉ d.data ∧ d.data ≠ []) →
    flagWords (joinWithPre ds (pc ++ " ")) = ds.flatMap (fun d => [pc, d]) := by
  intro ds
  induction ds with
  | nil => intro _; rfl
  | cons d t ih =>
    intro hds
    have hd := hds d (List.mem_cons_self d t)
    cases t with
    | nil =>
      have hdata : (joinWithPre [d] (pc ++ " ")).data = pc.data ++ ' ' :: d.data := by
        simp [joinWithPre, String.data_append, List.append_assoc]
      rw [flagWords_two _ pc d hdata hpc1 hpc2 hd.1 hd.2]
      simp
    | cons d2 t2 =>
      have hdata : (joinWithPre (d :: d2 :: t2) (pc ++ " ")).data =
          pc.data ++ ' ' :: (d.data ++ ' ' :: (joinWithPre (d2 :: t2) (pc ++ " ")).data) := by
        simp only [joinWithPre]
        simp [String.data_append, List.append_assoc]
      unfold flagWords
      rw [hdata, splitWords_word_cons _ hpc1 hpc2,
        splitWords_word_cons _ hd.1 hd.2]
      have iht := ih (fun x hx => hds x (List.mem_cons_of_mem _ hx))
      unfold flagWords at iht
      simp only [List.map_cons, iht]
      rfl

/-- `C5`: at the packaging command line, the token stream of the
assembled flag sequence contains, immediately after the `-M` token and
its manifest path, one `-A <dir>` token pair per resolved asset
directory followed by one `-S <dir>` token pair per resolved
(overlay-prepended) resource directory, preserving resolved order. -/
theorem C5_directory_flag_emission (env : Env) (a : AndroidApp)
    (hm : ' ' ∉ (manifestPath env a).data ∧ (manifestPath env a).data ≠ [])
    (ha : ∀ d ∈ resolvedAssetDirs env a, ' ' ∉ d.data ∧ d.data ≠ [])
    (hr : ∀ d ∈ resolvedResourceDirs env a, ' ' ∉ d.data ∧ d.data ≠ []) :
    (["-M", manifestPath env a] ++
      (resolvedAssetDirs env a).flatMap (fun d => ["-A", d]) ++
      (resolvedResourceDirs env a).flatMap (fun d => ["-S", d])) <:+:
      flagTokens (aaptFlags env a).flags := by
  have h1 : flagWords ("-M " ++ manifestPath env a) = ["-M", manifestPath env a] := by
    refine flagWords_two _ "-M" _ ?_ (by decide) (by decide) hm.1 hm.2
    rw [String.data_append]
    rfl
  have h2 : flagWords (joinWithPre (resolvedAssetDirs env a) "-A ") =
      (resolvedAssetDirs env a).flatMap (fun d => ["-A", d]) := by
    rw [show ("-A " : String) = "-A" ++ " " from rfl]
    exact flagWords_joinWithPre "-A" (by decide) (by decide) _ ha
  have h3 : flagWords (joinWithPre (resolvedResourceDirs env a) "-S ") =
      (resolvedResourceDirs env a).flatMap (fun d => ["-S", d]) := by
    rw [show ("-S " : String) = "-S" ++ " " from rfl]
    exact flagWords_joinWithPre "-S" (by decide) (by decide) _ hr
  have hT : flagTokens (aaptFlags env a).flags =
      flagTokens (a.appProperties.Aaptflags ++ ["-z"]) ++
      (["-M", manifestPath env a] ++
        (resolvedAssetDirs env a).flatMap (fun d => ["-A", d]) ++
        (resolvedResourceDirs env a).flatMap (fun d => ["-S", d])) ++
      flagTokens (env.depFiles.map (fun d => "-I " ++ d) ++
        ["--min-sdk-version " ++ sdkVersionOf env a,
         "--target-sdk-version " ++ sdkVersionOf env a] ++
        (if (scanVersionFlags a.appProperties.Aaptflags).1 then []
         else ["--version-code " ++ env.platformSdkVersion]) ++
        (if (scanVersionFlags a.appProperties.Aaptflags).2 then []
         else ["--version-name " ++ env.platformVersion ++ "-" ++ env.buildNumber])) := by
    rw [aaptFlags_flags_eq]
    simp [flagTokens, h1, h2, h3, List.append_assoc]
  rw [hT]
  exact ⟨_, _, rfl⟩

/-- Witness for `C5`: with one asset directory and an overlaid resource
directory, the token stream carries the directory tokens right after the
manifest tokens, in resolved order. -/
theorem C5_directory_flag_emission_witness :
    ["-M", "pkg/AndroidManifest.xml", "-A", "pkg/assets1",
     "-S", "/ov/pkg/res1", "-S", "pkg/res1"] <:+:
      flagTokens (aaptFlags envW appW).flags := by
  have h := C5_directory_flag_emission envW appW (by decide) (by decide) (by decide)
  exact h

end SoongApp
